import Mathlib

/-
  Verification of the crawl-and-fetch engine of the mvn-downloader
  repository (src/main.py) against its natural-language specification.

  The embedding is shallow: the Python functions of class MavenDownloader
  are translated into executable Lean functions over an explicit state.
  Python string operations are modelled by structurally recursive
  functions on the underlying character list, so that every definition
  evaluates inside the kernel.  Network and filesystem effects are
  modelled by an environment of response maps, and the thread pool that
  downloads one fixed batch of files is modelled by a fold over the
  batch: the pool waits for every submitted future before the dependency
  queue is drained, and the guard protecting the in-memory completed-set
  is taken under a single lock in the source, so any interleaving of the
  racing calls is equivalent to some serialisation of them.
-/

namespace MvnDl

/-! ### Python string primitives, modelled on the character list -/

/-- Python s.endswith(suf). -/
def pyEndsWith (s suf : String) : Bool := List.isSuffixOf suf.data s.data

/-- Python s.startswith(p). -/
def pyStartsWith (s p : String) : Bool := List.isPrefixOf p.data s.data

/-- Python string equality. -/
def pyEq (a b : String) : Bool := a.data == b.data

/-- Splitting a character list at a separator character, Python style:
the empty list yields one empty group. -/
def charSplit (c : Char) : List Char → List (List Char)
  | [] => [[]]
  | x :: xs =>
    let r := charSplit c xs
    if x = c then [] :: r
    else
      match r with
      | [] => [[x]]
      | g :: gs => (x :: g) :: gs

/-- Python s.split(c) for a one-character separator. -/
def pySplitChar (s : String) (c : Char) : List String :=
  (charSplit c s.data).map String.mk

/-- Python s.replace(a, b) for one-character arguments. -/
def pyReplaceChar (s : String) (a b : Char) : String :=
  String.mk (s.data.map fun c => if c = a then b else c)

/-- Python s.rstrip(c): drop every trailing occurrence of c. -/
def pyRStrip (s : String) (c : Char) : String :=
  String.mk ((s.data.reverse.dropWhile fun x => x = c).reverse)

/-- Helper for substring containment. -/
def containsAux (pat : List Char) : List Char → Bool
  | [] => List.isPrefixOf pat []
  | x :: xs => List.isPrefixOf pat (x :: xs) || containsAux pat xs

/-- Python (pat in s) substring test. -/
def pyContains (s pat : String) : Bool := containsAux pat.data s.data

/-- Python any(ch.isdigit() for ch in s). -/
def pyAnyDigit (s : String) : Bool := s.data.any Char.isDigit

/-- Lexicographic comparison of character lists by code point,
matching Python string ordering. -/
def lexLe : List Char → List Char → Bool
  | [], _ => true
  | _ :: _, [] => false
  | x :: xs, y :: ys => if x = y then lexLe xs ys else decide (x < y)

/-- Python string less-or-equal. -/
def pyStrLe (a b : String) : Bool := lexLe a.data b.data

/-- Insert into a sorted list of strings. -/
def insertSorted (x : String) : List String → List String
  | [] => [x]
  | y :: ys => if pyStrLe x y then x :: y :: ys else y :: insertSorted x ys

/-- Python sorted(...) on strings (insertion sort; on the duplicate-free
lists it is applied to, every correct sort agrees). -/
def sortStrings : List String → List String
  | [] => []
  | x :: xs => insertSorted x (sortStrings xs)

/-- Duplicate removal modelling the Python set used before sorting
(keeps the last occurrence; the choice is irrelevant after sorting). -/
def dedupStr : List String → List String
  | [] => []
  | x :: xs => if xs.any (pyEq x) then dedupStr xs else x :: dedupStr xs

/-! ### Fetch layer: try_request_with_mirrors (src/main.py lines 132-166)

One HTTP GET is modelled by a map from (base, path) to an outcome:
either a transport-level exception or a response with a status code.
requests raise_for_status raises exactly for statuses in [400, 600).
random.choice over the non-empty mirror list is modelled by an
arbitrary index parameter pick, reduced modulo the list length; as pick
ranges over indices, every mirror is the chosen one, which is the
shallow counterpart of the uniform choice. -/

/-- Outcome of one requests.get call. -/
inductive ReqOutcome where
  | exn
  | resp (status : Nat)
deriving DecidableEq, Repr

/-- One attempt against one base: none when the transport fails or
raise_for_status would raise (status in [400, 600)), otherwise the
status of the successful response. -/
def attemptBase (net : String → String → ReqOutcome) (base path : String) : Option Nat :=
  match net base path with
  | .exn => none
  | .resp s => if 400 ≤ s ∧ s < 600 then none else some s

/-- The mirror picked by random.choice, as a function of the random
index: element pick % length of a non-empty list, none when the mirror
list is empty. -/
def chosenMirror (mirrors : List String) (pick : Nat) : Option String :=
  match mirrors with
  | [] => none
  | m :: ms => some ((m :: ms).get ⟨pick % (ms.length + 1), Nat.mod_lt _ (Nat.succ_pos _)⟩)

/-- try_request_with_mirrors together with the list of bases it
actually attempts, in order: the chosen mirror first when mirrors are
configured, then the origin base_url only if the mirror attempt failed;
with no mirrors the origin is the only attempt.  The first component is
the returned (status, source) pair, none when every attempted base
failed. -/
def try_request_run (mirrors : List String) (base_url : String)
    (net : String → String → ReqOutcome) (pick : Nat) (path : String) :
    Option (Nat × String) × List String :=
  match chosenMirror mirrors pick with
  | some mirror =>
    match attemptBase net mirror path with
    | some s => (some (s, mirror), [mirror])
    | none =>
      match attemptBase net base_url path with
      | some s => (some (s, base_url), [mirror, base_url])
      | none => (none, [mirror, base_url])
  | none =>
    match attemptBase net base_url path with
    | some s => (some (s, base_url), [base_url])
    | none => (none, [base_url])

/-- The value returned to the caller by try_request_with_mirrors. -/
def try_request_with_mirrors (mirrors : List String) (base_url : String)
    (net : String → String → ReqOutcome) (pick : Nat) (path : String) :
    Option (Nat × String) :=
  (try_request_run mirrors base_url net pick path).1

/-- The ordered list of bases the call attempts. -/
def attemptedBases (mirrors : List String) (base_url : String)
    (net : String → String → ReqOutcome) (pick : Nat) (path : String) :
    List String :=
  (try_request_run mirrors base_url net pick path).2

/-! ### Listing parsers (src/main.py lines 188-328)

Each listing function fetches a directory page and walks its anchor
hrefs.  The markup dialect is external: a page is modelled as the list
of href strings of its anchors (an anchor without href contributes the
empty string, which every loop skips via the `if href` truthiness
test). -/

/-- The fixed set of checksum and signature suffixes skipped by
get_files_in_version. -/
def checksumSuffixes : List String := [".md5", ".sha1", ".sha256", ".sha512", ".asc"]

/-- href.endswith((".md5", ".sha1", ".sha256", ".sha512", ".asc")). -/
def hasChecksumSuffix (h : String) : Bool :=
  checksumSuffixes.any fun suf => pyEndsWith h suf

/-- Link walk of get_files_in_version (lines 296-303): keep every
truthy href that does not end with a slash, is not the parent link and
carries no checksum or signature suffix; emit version_path/href. -/
def get_files_in_version_links (version_path : String) (hrefs : List String) : List String :=
  hrefs.filterMap fun h =>
    if (!(pyEq h "")) && (!(pyEndsWith h "/")) && (!(pyEq h "../")) &&
        (!(hasChecksumSuffix h)) then
      some (version_path ++ "/" ++ h)
    else none

/-- Link walk of get_artifact_metadata (lines 318-323): keep every
truthy href that starts with maven-metadata and does not end with .asc;
checksum suffixes are deliberately kept by the source (its comment says
the checksum companions of maven-metadata.xml are collected and only
signature files are skipped). -/
def get_artifact_metadata_links (artifact_path : String) (hrefs : List String) : List String :=
  hrefs.filterMap fun h =>
    if (!(pyEq h "")) && pyStartsWith h "maven-metadata" && (!(pyEndsWith h ".asc")) then
      some (artifact_path ++ "/" ++ h)
    else none

/-- Link walk of get_versions_list (lines 273-279): keep every truthy
href ending with a slash, other than the parent and root links; strip
the trailing slashes; skip maven-metadata entries. -/
def get_versions_links (artifact_path : String) (hrefs : List String) : List String :=
  hrefs.filterMap fun h =>
    if (!(pyEq h "")) && pyEndsWith h "/" && (!(pyEq h "../")) && (!(pyEq h "/")) then
      let version := pyRStrip h '/'
      if !(pyStartsWith version "maven-metadata") then
        some (artifact_path ++ "/" ++ version)
      else none
    else none

/-- _is_version_directory (lines 238-240): a name that contains any
digit looks like a version. -/
def _is_version_directory (dirname : String) : Bool := pyAnyDigit dirname

/-- A maven-metadata link other than a signature (line 230). -/
def isMetadataLink (h : String) : Bool :=
  (!(pyEq h "")) && pyStartsWith h "maven-metadata" && (!(pyEndsWith h ".asc"))

/-- A child directory link whose name looks like a version (line 232). -/
def isVersionChildLink (h : String) : Bool :=
  (!(pyEq h "")) && pyEndsWith h "/" && _is_version_directory (pyRStrip h '/')

/-- Page predicate of _is_artifact_directory (lines 222-234): a
maven-metadata link decides immediately, otherwise any version-looking
child directory does.  The early return of the loop yields the same
boolean as this disjunction and performs no further effect. -/
def artifactPageIsArtifact (hrefs : List String) : Bool :=
  hrefs.any isMetadataLink || hrefs.any isVersionChildLink

/-! ### Descriptor parser: parse_pom_dependencies (lines 330-351)

The XML library is an external collaborator: its result is modelled as
none when ET.fromstring raises (the except branch returns the empty
list), or the list of dependency elements, each carrying the optional
text of its groupId child (none when the groupId element is missing;
the empty string models falsy text).  The Python set is modelled by
duplicate removal; its iteration order is arbitrary and no claim
depends on the order. -/

/-- parse_pom_dependencies: best-effort extraction of literal groupIds,
discarding placeholder expressions that begin with the
variable-substitution marker. -/
def parse_pom_dependencies (parsed : Option (List (Option String))) : List String :=
  match parsed with
  | none => []
  | some deps =>
    dedupStr (deps.filterMap fun g =>
      match g with
      | none => none
      | some t => if (!(pyEq t "")) && (!(pyStartsWith t "$\x7b")) then some t else none)

/-! ### The crawl engine (download_file, download_group, _resume_download)

State observed by the claims: the in-memory completed-set
downloaded_files, the durable append-only log downloaded.txt, the
new_dependencies queue, the _processed_groups set, the pending_files
list, and an event trace recording every network request, every disk
write and every expansion decision. -/

/-- How a download_group invocation was reached: the command-line seed,
a subgroup found while listing, or a dependency drained from the
new_dependencies queue. -/
inductive Origin where
  | seed
  | subgroup
  | dep
deriving DecidableEq, Repr

/-- Observable events of a run. -/
inductive Ev where
  /-- one HTTP GET issued through try_request_with_mirrors -/
  | fetch (p : String)
  /-- the local file at path p is opened for writing -/
  | write (p : String)
  /-- download_group passed its guards for group g at depth d -/
  | expand (g : String) (d : Nat) (o : Origin)
  /-- dependency g was dequeued from new_dependencies at depth d -/
  | depDrain (g : String) (d : Nat)
deriving DecidableEq, Repr

/-- Mutable state of one MavenDownloader run. -/
structure St where
  downloaded : List String
  log : List String
  newDeps : List String
  processed : List String
  pending : List String
  trace : List Ev
deriving Repr

/-- External world: directory listings (none models exhaustion of every
base in try_request_with_mirrors), success of a file-body fetch,
presence of the local file, success of the local write, the parsed
dependency groupIds of a descriptor body, and the configured exclusion
patterns. -/
structure Env where
  listing : String → Option (List String)
  fileOk : String → Bool
  onDisk : String → Bool
  writeOk : String → Bool
  pomDeps : String → List String
  excludePatterns : List String

/-- group_id_to_path (lines 168-170). -/
def group_id_to_path (g : String) : String := pyReplaceChar g '.' '/'

/-- path.replace with dots, used at lines 477, 487, 502. -/
def pathToGroupId (p : String) : String := pyReplaceChar p '/' '.'

/-- _should_exclude (lines 172-186): empty pattern list excludes
nothing; otherwise a pattern excludes when it equals one dot-separated
part or is a substring of one part. -/
def _should_exclude (patterns : List String) (group_id : String) : Bool :=
  match patterns with
  | [] => false
  | _ :: _ =>
    let parts := pySplitChar group_id '.'
    patterns.any fun pat =>
      parts.any (fun part => pyEq pat part) || parts.any (fun part => pyContains part pat)

/-- One listing request through try_request_with_mirrors, recorded in
the trace; the fetch layer is the abstraction verified above: it
returns the page or none when every base failed. -/
def fetchListing (env : Env) (st : St) (reqPath : String) : Option (List String) × St :=
  (env.listing reqPath, { st with trace := st.trace ++ [.fetch reqPath] })

/-- _is_artifact_directory (lines 216-236). -/
def _is_artifact_directory (env : Env) (st : St) (path : String) : Bool × St :=
  let p := fetchListing env st (path ++ "/")
  match p.1 with
  | none => (false, p.2)
  | some hrefs => (artifactPageIsArtifact hrefs, p.2)

/-- Child classification loop of get_artifacts_list (lines 200-209):
every child directory link is classified by one listing request against
the child itself. -/
def classifyChildren (env : Env) (group_path : String) :
    List String → St → List String × List String × St
  | [], st => ([], [], st)
  | h :: hs, st =>
    if (!(pyEq h "")) && pyEndsWith h "/" && (!(pyEq h "../")) && (!(pyEq h "/")) then
      let item := pyRStrip h '/'
      let full := group_path ++ "/" ++ item
      let q := _is_artifact_directory env st full
      let r := classifyChildren env group_path hs q.2
      if q.1 then (full :: r.1, r.2.1, r.2.2) else (r.1, full :: r.2.1, r.2.2)
    else classifyChildren env group_path hs st

/-- get_artifacts_list (lines 188-214). -/
def get_artifacts_list (env : Env) (st : St) (group_path : String) :
    List String × List String × St :=
  let p := fetchListing env st (group_path ++ "/")
  match p.1 with
  | none => ([], [], p.2)
  | some hrefs => classifyChildren env group_path hrefs p.2

/-- get_versions_list (lines 263-284). -/
def get_versions_list (env : Env) (st : St) (artifact_path : String) :
    List String × St :=
  let p := fetchListing env st (artifact_path ++ "/")
  match p.1 with
  | none => ([], p.2)
  | some hrefs => (get_versions_links artifact_path hrefs, p.2)

/-- get_files_in_version (lines 286-306). -/
def get_files_in_version (env : Env) (st : St) (version_path : String) :
    List String × St :=
  let p := fetchListing env st (version_path ++ "/")
  match p.1 with
  | none => ([], p.2)
  | some hrefs => (get_files_in_version_links version_path hrefs, p.2)

/-- get_artifact_metadata (lines 308-328). -/
def get_artifact_metadata (env : Env) (st : St) (artifact_path : String) :
    List String × St :=
  let p := fetchListing env st (artifact_path ++ "/")
  match p.1 with
  | none => ([], p.2)
  | some hrefs => (get_artifact_metadata_links artifact_path hrefs, p.2)

/-- The push of extracted dependencies performed after a descriptor is
read (lines 374-379 and 407-413). -/
def pushPomDeps (env : Env) (st : St) (file_path : String) : St :=
  if pyEndsWith file_path ".pom" then
    { st with newDeps := st.newDeps ++ env.pomDeps file_path }
  else st

/-- download_file (lines 353-421).  The membership test and the
insertion into downloaded_files happen under one lock in the source;
the body after the guard runs for at most one caller per path.  The
write event marks the open of the local file; writeOk decides whether
the chunk loop completes, and only then are the durable log append and
the descriptor parse reached. -/
def download_file (env : Env) (st : St) (file_path : String) : St :=
  if st.downloaded.any (pyEq file_path) then st
  else
    let st1 : St := { st with downloaded := file_path :: st.downloaded }
    if env.onDisk file_path then
      pushPomDeps env { st1 with log := st1.log ++ [file_path] } file_path
    else
      let st2 : St := { st1 with trace := st1.trace ++ [.fetch file_path] }
      if env.fileOk file_path then
        let st3 : St := { st2 with trace := st2.trace ++ [.write file_path] }
        if env.writeOk file_path then
          pushPomDeps env { st3 with log := st3.log ++ [file_path] } file_path
        else st3
      else st2

/-- The drain loop of download_group (lines 617-620): dequeue the whole
new_dependencies queue, recording one depDrain event per element. -/
def drainNewDeps (st : St) (depth : Nat) : List String × St :=
  (st.newDeps,
   { st with newDeps := [],
             trace := st.trace ++ st.newDeps.map fun g => .depDrain g depth })

/-- Versions of every artifact (lines 535-539). -/
def collectVersions (env : Env) : List String → St → List String × St
  | [], st => ([], st)
  | a :: rest, st =>
    let p := get_versions_list env st a
    let q := collectVersions env rest p.2
    (p.1 ++ q.1, q.2)

/-- Files of every version (lines 545-547). -/
def collectVersionFiles (env : Env) : List String → St → List String × St
  | [], st => ([], st)
  | v :: rest, st =>
    let p := get_files_in_version env st v
    let q := collectVersionFiles env rest p.2
    (p.1 ++ q.1, q.2)

/-- Artifact-level maven-metadata files of every artifact
(lines 558-562). -/
def collectMetadataFiles (env : Env) : List String → St → List String × St
  | [], st => ([], st)
  | a :: rest, st =>
    let p := get_artifact_metadata env st a
    let q := collectMetadataFiles env rest p.2
    (p.1 ++ q.1, q.2)

/-- Lines 566-636 of download_group: the not-yet-downloaded files of
this invocation are submitted as one batch to the thread pool, which
completes every future before the code continues (as_completed iterates
the whole map); the fold is its serialisation.  Afterwards, only when
dependency processing is on and the current depth is below
max_depth - 1, the whole new_dependencies queue is drained and each
drained group not yet visited is expanded one level deeper. -/
def download_group_files (env : Env) (include_deps : Bool) (max_depth : Nat)
    (recurse : String → Nat → Origin → St → St)
    (depth : Nat) (all_files : List String) (st : St) : St :=
  if all_files.isEmpty then st
  else
    let files_to_download := all_files.filter fun f => !(st.downloaded.any (pyEq f))
    let st := { st with pending := files_to_download }
    let st := files_to_download.foldl (download_file env) st
    let st := { st with pending := [] }
    if include_deps && decide (depth < max_depth - 1) then
      let pd := drainNewDeps st depth
      let dependency_groups :=
        sortStrings (dedupStr (pd.1.filter fun g => !(pd.2.processed.any (pyEq g))))
      dependency_groups.foldl (fun st dg => recurse dg (depth + 1) .dep st) pd.2
    else st

/-- Lines 499-564 of download_group, over the already-filtered child
lists: with no artifacts, subgroups are explored at the same depth and
the invocation returns; otherwise subgroups are explored first, then
versions, version files and artifact-level metadata files are scanned
and handed to the batch phase. -/
def download_group_children (env : Env) (include_deps : Bool) (max_depth : Nat)
    (recurse : String → Nat → Origin → St → St)
    (depth : Nat) (artifacts subgroups : List String) (st : St) : St :=
  if artifacts.isEmpty && !(subgroups.isEmpty) then
    subgroups.foldl (fun st sg => recurse (pathToGroupId sg) depth .subgroup st) st
  else if artifacts.isEmpty then st
  else
    let st := subgroups.foldl (fun st sg => recurse (pathToGroupId sg) depth .subgroup st) st
    let pv := collectVersions env artifacts st
    let pf := collectVersionFiles env pv.1 pv.2
    let pm := collectMetadataFiles env artifacts pf.2
    download_group_files env include_deps max_depth recurse depth (pf.1 ++ pm.1) pm.2

/-- Body of download_group (lines 423-645) for one invocation, with the
recursive call abstracted (the source recursion is unbounded in the
subgroup direction; the fuel is supplied by download_group below).
dry_run is false and the depth-zero resume branch is modelled by run
below.  The progress display and the versions_map bookkeeping feed only
the printed tree and are omitted.  Guards (lines 446-452): a group
already visited or a depth at or beyond max_depth returns immediately;
then the group is recorded, listed, and its children filtered by the
exclusion patterns (lines 469-497: the source skips the filter loop
entirely when no patterns are configured). -/
def download_group_body (env : Env) (include_deps : Bool) (max_depth : Nat)
    (recurse : String → Nat → Origin → St → St)
    (group_id : String) (depth : Nat) (origin : Origin) (st : St) : St :=
  if st.processed.any (pyEq group_id) then st
  else if max_depth ≤ depth then st
  else
    let st := { st with processed := group_id :: st.processed,
                        trace := st.trace ++ [.expand group_id depth origin] }
    let p := get_artifacts_list env st (group_id_to_path group_id)
    let artifacts := if env.excludePatterns.isEmpty then p.1
      else p.1.filter fun a => !(_should_exclude env.excludePatterns (pathToGroupId a))
    let subgroups := if env.excludePatterns.isEmpty then p.2.1
      else p.2.1.filter fun sg => !(_should_exclude env.excludePatterns (pathToGroupId sg))
    download_group_children env include_deps max_depth recurse depth artifacts subgroups p.2.2

/-- download_group with explicit fuel bounding the call tree; fuel zero
returns the state unchanged, so every claim proved for all fuel is a
property of every finite execution of the source recursion. -/
def download_group (env : Env) (include_deps : Bool) (max_depth : Nat) :
    Nat → String → Nat → Origin → St → St
  | 0, _, _, _, st => st
  | fuel + 1, group_id, depth, origin, st =>
    download_group_body env include_deps max_depth
      (download_group env include_deps max_depth fuel) group_id depth origin st

/-- _resume_download (lines 647-681): drain the restored pending list
through the thread pool, then clear it.  The pool completes every
submitted future; the fold is its serialisation. -/
def _resume_download (env : Env) (st : St) : St :=
  if st.pending.isEmpty then st
  else
    let st2 := st.pending.foldl (download_file env) st
    { st2 with pending := [] }

/-- Top-level entry (lines 433-439): when a non-empty snapshot was
loaded and accepted, the run only resumes the restored list and never
enters the expansion; otherwise the seed group is expanded at depth
zero.  resume_accepted models _load_pending_files returning True. -/
def run (env : Env) (include_deps : Bool) (max_depth : Nat) (fuel : Nat)
    (resume_accepted : Bool) (group_id : String) (st : St) : St :=
  if resume_accepted then _resume_download env st
  else download_group env include_deps max_depth fuel group_id 0 .seed st

/-- The groupId carried by an expand event. -/
def evExpandGid : Ev → Option String
  | .expand g _ _ => some g
  | _ => none

/-- The groupIds of the expand events of a trace, in order. -/
def expandGids (l : List Ev) : List String := l.filterMap evExpandGid

/-- Events that are only observations of the network or the disk. -/
def plainEv : Ev → Prop
  | .fetch _ => True
  | .write _ => True
  | _ => False

/-- A listing helper only appends network events to the trace. -/
def ListStep (st r : St) : Prop :=
  r.downloaded = st.downloaded ∧ r.log = st.log ∧ r.newDeps = st.newDeps ∧
  r.processed = st.processed ∧ r.pending = st.pending ∧
  ∃ t, r.trace = st.trace ++ t ∧ ∀ e ∈ t, plainEv e

/-- download_file only appends fetch and write events, only pushes onto
the dependency queue, and leaves the visited set and the pending list
untouched. -/
def DfStep (st r : St) : Prop :=
  r.processed = st.processed ∧ r.pending = st.pending ∧
  (∃ l, r.newDeps = st.newDeps ++ l) ∧
  (∃ t, r.trace = st.trace ++ t ∧ ∀ e ∈ t, plainEv e)

/-- Per-event soundness: expand events stay below the depth bound and,
when reached through subgroup listing, concern only non-excluded
groups; depDrain events happen only with dependency processing enabled
and strictly below the last expanded depth level. -/
def evOK (pats : List String) (inc : Bool) (maxd : Nat) : Ev → Prop
  | .fetch _ => True
  | .write _ => True
  | .expand g d o => d < maxd ∧ (o = .subgroup → _should_exclude pats g = false)
  | .depDrain _ d => inc = true ∧ d + 1 < maxd

/-- Every group with an expand event is in the visited set. -/
def expandInv (st : St) : Prop :=
  ∀ g d o, Ev.expand g d o ∈ st.trace → g ∈ st.processed

/-- st evolves to r soundly: appended events satisfy evOK, the visited
set only grows, every new expand event concerns a group not already
visited in st, and the no-duplicate-expansion invariant is preserved. -/
def Ext (pats : List String) (inc : Bool) (maxd : Nat) (st r : St) : Prop :=
  (∃ t, r.trace = st.trace ++ t ∧ ∀ e ∈ t, evOK pats inc maxd e) ∧
  (∀ g, g ∈ st.processed → g ∈ r.processed) ∧
  (∀ g d o, Ev.expand g d o ∈ r.trace → Ev.expand g d o ∈ st.trace ∨ g ∉ st.processed) ∧
  ((expandInv st ∧ (expandGids st.trace).Nodup) →
     (expandInv r ∧ (expandGids r.trace).Nodup))

/-- The new_dependencies queue is only appended to. -/
def NDext (st r : St) : Prop := ∃ l, r.newDeps = st.newDeps ++ l

/-! ### Concrete inputs used by the claim-level theorems -/

/-- The empty initial state of a fresh run. -/
def st0 : St :=
  { downloaded := [], log := [], newDeps := [], processed := [], pending := [], trace := [] }

/-- A one-group repository: group g holds artifact a with version 1.0
holding the descriptor x.pom, whose dependencies parse to dep.g. -/
def envPom : Env :=
  { listing := fun p =>
      if pyEq p "g/" then some ["a/"]
      else if pyEq p "g/a/" then some ["1.0/"]
      else if pyEq p "g/a/1.0/" then some ["x.pom"]
      else none,
    fileOk := fun _ => true, onDisk := fun _ => false, writeOk := fun _ => true,
    pomDeps := fun p => if pyEq p "g/a/1.0/x.pom" then ["dep.g"] else [],
    excludePatterns := [] }

/-- A repository whose group a has one child directory bad, with bad
matching the configured exclusion pattern. -/
def envExcl : Env :=
  { listing := fun p => if pyEq p "a/" then some ["bad/"] else none,
    fileOk := fun _ => true, onDisk := fun _ => false, writeOk := fun _ => true,
    pomDeps := fun _ => [], excludePatterns := ["bad"] }

/-- A world where every fetch fails and nothing is on disk. -/
def envFetchFail : Env :=
  { listing := fun _ => none, fileOk := fun _ => false, onDisk := fun _ => false,
    writeOk := fun _ => false, pomDeps := fun _ => [], excludePatterns := [] }

/-- A world where every fetch and write succeeds and no file is
present locally. -/
def envOkAll : Env :=
  { listing := fun _ => none, fileOk := fun _ => true, onDisk := fun _ => false,
    writeOk := fun _ => true, pomDeps := fun _ => [], excludePatterns := [] }

/-- A restored snapshot with one pending file. -/
def stPend : St := { st0 with pending := ["p/x.jar"] }

/-- A net where the origin succeeds and every mirror fails with a
server error. -/
def netMirrorFailOriginOk : String → String → ReqOutcome := fun base _ =>
  if pyEq base "https://origin/" then .resp 200 else .resp 503

/-- N racing download_file calls on one path.  The membership guard and
the insertion of download_file are one atomic section under self.lock
in the source and the body past the guard runs for at most one caller
per path, so every interleaving of the racing calls is equivalent to a
serialisation, which this fold models. -/
def raceDownload (env : Env) (n : Nat) (file_path : String) (st : St) : St :=
  (List.replicate n file_path).foldl (download_file env) st

/-! ### Basic lemmas about the string primitives and events -/

theorem pyEq_iff {a b : String} : pyEq a b = true ↔ a = b := by
  cases a with
  | mk la =>
    cases b with
    | mk lb =>
      simp only [pyEq, beq_iff_eq]
      exact ⟨fun h => by rw [h], fun h => by cases h; rfl⟩

theorem any_pyEq_iff {l : List String} {x : String} :
    l.any (pyEq x) = true ↔ x ∈ l := by
  simp only [List.any_eq_true, pyEq_iff]
  constructor
  · rintro ⟨y, hy, rfl⟩
    exact hy
  · intro hx
    exact ⟨x, hx, rfl⟩




theorem evExpandGid_eq_some {e : Ev} {x : String} :
    evExpandGid e = some x ↔ ∃ d o, e = Ev.expand x d o := by
  cases e <;> simp [evExpandGid]

theorem mem_expandGids {g : String} {l : List Ev} :
    g ∈ expandGids l ↔ ∃ d o, Ev.expand g d o ∈ l := by
  simp only [expandGids, List.mem_filterMap, evExpandGid_eq_some]
  constructor
  · rintro ⟨e, he, d, o, rfl⟩
    exact ⟨d, o, he⟩
  · rintro ⟨d, o, he⟩
    exact ⟨Ev.expand g d o, he, d, o, rfl⟩

theorem expandGids_append (l₁ l₂ : List Ev) :
    expandGids (l₁ ++ l₂) = expandGids l₁ ++ expandGids l₂ :=
  List.filterMap_append l₁ l₂ evExpandGid

theorem plainEv_not_expand {e : Ev} (h : plainEv e) :
    ∀ g d o, e ≠ Ev.expand g d o := by
  cases e <;> simp_all [plainEv]

theorem expandGids_of_plain {t : List Ev} (h : ∀ e ∈ t, plainEv e) :
    expandGids t = [] := by
  induction t with
  | nil => rfl
  | cons e t ih =>
    have he := h e (List.mem_cons_self e t)
    have ht := ih fun x hx => h x (List.mem_cons_of_mem e hx)
    cases e <;> simp_all [expandGids, evExpandGid, plainEv]

/-! ### Step relations for the crawl helpers -/


theorem listStep_refl {st : St} : ListStep st st :=
  ⟨rfl, rfl, rfl, rfl, rfl, [], by simp, by simp⟩

theorem listStep_trans {s₁ s₂ s₃ : St} (h₁ : ListStep s₁ s₂) (h₂ : ListStep s₂ s₃) :
    ListStep s₁ s₃ := by
  obtain ⟨d₁, l₁, n₁, p₁, q₁, t₁, ht₁, hp₁⟩ := h₁
  obtain ⟨d₂, l₂, n₂, p₂, q₂, t₂, ht₂, hp₂⟩ := h₂
  refine ⟨d₂.trans d₁, l₂.trans l₁, n₂.trans n₁, p₂.trans p₁, q₂.trans q₁,
    t₁ ++ t₂, ?_, ?_⟩
  · rw [ht₂, ht₁, List.append_assoc]
  · intro e he
    rcases List.mem_append.mp he with h | h
    · exact hp₁ e h
    · exact hp₂ e h

theorem fetchListing_listStep (env : Env) (st : St) (p : String) :
    ListStep st (fetchListing env st p).2 :=
  ⟨rfl, rfl, rfl, rfl, rfl, [.fetch p], rfl, by simp [plainEv]⟩

theorem _is_artifact_directory_listStep (env : Env) (st : St) (p : String) :
    ListStep st (_is_artifact_directory env st p).2 := by
  unfold _is_artifact_directory
  cases h : (fetchListing env st (p ++ "/")).1 <;>
    simpa [h] using fetchListing_listStep env st (p ++ "/")

theorem classifyChildren_listStep (env : Env) (gp : String) :
    ∀ (hs : List String) (st : St), ListStep st (classifyChildren env gp hs st).2.2 := by
  intro hs
  induction hs with
  | nil => intro st; exact listStep_refl
  | cons h rest ih =>
    intro st
    unfold classifyChildren
    by_cases hc : ((!pyEq h "") && pyEndsWith h "/" && (!pyEq h "../") && (!pyEq h "/")) = true
    · simp only [hc, if_true]
      have h1 := _is_artifact_directory_listStep env st (gp ++ "/" ++ pyRStrip h '/')
      have h2 := ih (_is_artifact_directory env st (gp ++ "/" ++ pyRStrip h '/')).2
      by_cases hart : (_is_artifact_directory env st (gp ++ "/" ++ pyRStrip h '/')).1 = true <;>
        simp only [hart, if_true, if_false, Bool.false_eq_true] <;>
        exact listStep_trans h1 h2
    · simp only [Bool.not_eq_true] at hc
      simp only [hc, Bool.false_eq_true, if_false]
      exact ih st

theorem get_artifacts_list_listStep (env : Env) (st : St) (gp : String) :
    ListStep st (get_artifacts_list env st gp).2.2 := by
  unfold get_artifacts_list
  cases h : (fetchListing env st (gp ++ "/")).1 with
  | none => simpa [h] using fetchListing_listStep env st (gp ++ "/")
  | some hrefs =>
    simp only [h]
    exact listStep_trans (fetchListing_listStep env st (gp ++ "/"))
      (classifyChildren_listStep env gp hrefs _)

theorem get_versions_list_listStep (env : Env) (st : St) (p : String) :
    ListStep st (get_versions_list env st p).2 := by
  unfold get_versions_list
  cases h : (fetchListing env st (p ++ "/")).1 <;>
    simpa [h] using fetchListing_listStep env st (p ++ "/")

theorem get_files_in_version_listStep (env : Env) (st : St) (p : String) :
    ListStep st (get_files_in_version env st p).2 := by
  unfold get_files_in_version
  cases h : (fetchListing env st (p ++ "/")).1 <;>
    simpa [h] using fetchListing_listStep env st (p ++ "/")

theorem get_artifact_metadata_listStep (env : Env) (st : St) (p : String) :
    ListStep st (get_artifact_metadata env st p).2 := by
  unfold get_artifact_metadata
  cases h : (fetchListing env st (p ++ "/")).1 <;>
    simpa [h] using fetchListing_listStep env st (p ++ "/")

theorem collectVersions_listStep (env : Env) :
    ∀ (l : List String) (st : St), ListStep st (collectVersions env l st).2 := by
  intro l
  induction l with
  | nil => intro st; exact listStep_refl
  | cons a rest ih =>
    intro st
    unfold collectVersions
    exact listStep_trans (get_versions_list_listStep env st a) (ih _)

theorem collectVersionFiles_listStep (env : Env) :
    ∀ (l : List String) (st : St), ListStep st (collectVersionFiles env l st).2 := by
  intro l
  induction l with
  | nil => intro st; exact listStep_refl
  | cons a rest ih =>
    intro st
    unfold collectVersionFiles
    exact listStep_trans (get_files_in_version_listStep env st a) (ih _)

theorem collectMetadataFiles_listStep (env : Env) :
    ∀ (l : List String) (st : St), ListStep st (collectMetadataFiles env l st).2 := by
  intro l
  induction l with
  | nil => intro st; exact listStep_refl
  | cons a rest ih =>
    intro st
    unfold collectMetadataFiles
    exact listStep_trans (get_artifact_metadata_listStep env st a) (ih _)


theorem dfStep_refl {st : St} : DfStep st st :=
  ⟨rfl, rfl, ⟨[], by simp⟩, ⟨[], by simp, by simp⟩⟩

theorem dfStep_trans {s₁ s₂ s₃ : St} (h₁ : DfStep s₁ s₂) (h₂ : DfStep s₂ s₃) :
    DfStep s₁ s₃ := by
  obtain ⟨p₁, q₁, ⟨n₁, hn₁⟩, ⟨t₁, ht₁, hp₁⟩⟩ := h₁
  obtain ⟨p₂, q₂, ⟨n₂, hn₂⟩, ⟨t₂, ht₂, hp₂⟩⟩ := h₂
  refine ⟨p₂.trans p₁, q₂.trans q₁, ⟨n₁ ++ n₂, ?_⟩, ⟨t₁ ++ t₂, ?_, ?_⟩⟩
  · rw [hn₂, hn₁, List.append_assoc]
  · rw [ht₂, ht₁, List.append_assoc]
  · intro e he
    rcases List.mem_append.mp he with h | h
    · exact hp₁ e h
    · exact hp₂ e h

theorem pushPomDeps_dfStep (env : Env) (st : St) (fp : String) :
    DfStep st (pushPomDeps env st fp) := by
  unfold pushPomDeps
  by_cases h : pyEndsWith fp ".pom" = true
  · simp only [h, if_true]
    exact ⟨rfl, rfl, ⟨env.pomDeps fp, rfl⟩, ⟨[], by simp, by simp⟩⟩
  · simp only [Bool.not_eq_true] at h
    simp only [h, Bool.false_eq_true, if_false]
    exact dfStep_refl

theorem download_file_dfStep (env : Env) (st : St) (fp : String) :
    DfStep st (download_file env st fp) := by
  unfold download_file
  by_cases h0 : st.downloaded.any (pyEq fp) = true
  · simp only [h0, if_true]
    exact dfStep_refl
  · simp only [Bool.not_eq_true] at h0
    simp only [h0, Bool.false_eq_true, if_false]
    by_cases h1 : env.onDisk fp = true
    · simp only [h1, if_true]
      refine dfStep_trans ?_ (pushPomDeps_dfStep env _ fp)
      exact ⟨rfl, rfl, ⟨[], by simp⟩, ⟨[], by simp, by simp⟩⟩
    · simp only [Bool.not_eq_true] at h1
      simp only [h1, Bool.false_eq_true, if_false]
      by_cases h2 : env.fileOk fp = true
      · simp only [h2, if_true]
        by_cases h3 : env.writeOk fp = true
        · simp only [h3, if_true]
          refine dfStep_trans ?_ (pushPomDeps_dfStep env _ fp)
          refine ⟨rfl, rfl, ⟨[], by simp⟩, ⟨[.fetch fp, .write fp], ?_, ?_⟩⟩
          · simp
          · simp [plainEv]
        · simp only [Bool.not_eq_true] at h3
          simp only [h3, Bool.false_eq_true, if_false]
          refine ⟨rfl, rfl, ⟨[], by simp⟩, ⟨[.fetch fp, .write fp], ?_, ?_⟩⟩
          · simp
          · simp [plainEv]
      · simp only [Bool.not_eq_true] at h2
        simp only [h2, Bool.false_eq_true, if_false]
        exact ⟨rfl, rfl, ⟨[], by simp⟩, ⟨[.fetch fp], by simp, by simp [plainEv]⟩⟩

theorem dfStep_foldl (env : Env) :
    ∀ (l : List String) (st : St), DfStep st (l.foldl (download_file env) st) := by
  intro l
  induction l with
  | nil => intro st; exact dfStep_refl
  | cons a rest ih =>
    intro st
    exact dfStep_trans (download_file_dfStep env st a) (ih _)

theorem listStep_dfStep {st r : St} (h : ListStep st r) : DfStep st r := by
  obtain ⟨_, _, hn, hp, hq, t, ht, hpl⟩ := h
  exact ⟨hp, hq, ⟨[], by simp [hn]⟩, ⟨t, ht, hpl⟩⟩

/-! ### The master soundness relation for download_group -/




theorem ext_refl {pats : List String} {inc : Bool} {maxd : Nat} {st : St} :
    Ext pats inc maxd st st :=
  ⟨⟨[], by simp, by simp⟩, fun _ h => h, fun _ _ _ h => Or.inl h, id⟩

theorem ext_trans {pats : List String} {inc : Bool} {maxd : Nat} {s₁ s₂ s₃ : St}
    (h₁ : Ext pats inc maxd s₁ s₂) (h₂ : Ext pats inc maxd s₂ s₃) :
    Ext pats inc maxd s₁ s₃ := by
  obtain ⟨⟨t₁, ht₁, hok₁⟩, hproc₁, hnew₁, hinv₁⟩ := h₁
  obtain ⟨⟨t₂, ht₂, hok₂⟩, hproc₂, hnew₂, hinv₂⟩ := h₂
  refine ⟨⟨t₁ ++ t₂, ?_, ?_⟩, fun g h => hproc₂ g (hproc₁ g h), ?_, fun h => hinv₂ (hinv₁ h)⟩
  · rw [ht₂, ht₁, List.append_assoc]
  · intro e he
    rcases List.mem_append.mp he with h | h
    · exact hok₁ e h
    · exact hok₂ e h
  · intro g d o hg
    rcases hnew₂ g d o hg with h | h
    · exact hnew₁ g d o h
    · exact Or.inr fun hmem => h (hproc₁ g hmem)

theorem ext_of_noexpand (pats : List String) (inc : Bool) (maxd : Nat) {st r : St}
    (hp : r.processed = st.processed)
    (ht : ∃ t, r.trace = st.trace ++ t ∧ (∀ e ∈ t, evOK pats inc maxd e) ∧
          (∀ e ∈ t, evExpandGid e = none)) :
    Ext pats inc maxd st r := by
  obtain ⟨t, htr, hok, hnoex⟩ := ht
  have hmem : ∀ g d o, Ev.expand g d o ∈ r.trace → Ev.expand g d o ∈ st.trace := by
    intro g d o hg
    rw [htr] at hg
    rcases List.mem_append.mp hg with h | h
    · exact h
    · have := hnoex _ h
      simp [evExpandGid] at this
  refine ⟨⟨t, htr, hok⟩, fun g h => hp ▸ h, fun g d o hg => Or.inl (hmem g d o hg), ?_⟩
  rintro ⟨hinv, hnd⟩
  have hgids : expandGids t = [] := List.filterMap_eq_nil_iff.mpr hnoex
  constructor
  · intro g d o hg
    rw [hp]
    exact hinv g d o (hmem g d o hg)
  · rw [htr, expandGids_append, hgids, List.append_nil]
    exact hnd

theorem plainEv_expandGid_none {e : Ev} (h : plainEv e) : evExpandGid e = none := by
  cases e <;> simp_all [plainEv, evExpandGid]

theorem plainEv_evOK {pats : List String} {inc : Bool} {maxd : Nat} {e : Ev}
    (h : plainEv e) : evOK pats inc maxd e := by
  cases e <;> simp_all [plainEv, evOK]

theorem listStep_ext (pats : List String) (inc : Bool) (maxd : Nat) {st r : St}
    (h : ListStep st r) : Ext pats inc maxd st r := by
  obtain ⟨_, _, _, hp, _, t, ht, hpl⟩ := h
  exact ext_of_noexpand pats inc maxd hp
    ⟨t, ht, fun e he => plainEv_evOK (hpl e he), fun e he => plainEv_expandGid_none (hpl e he)⟩

theorem dfStep_ext (pats : List String) (inc : Bool) (maxd : Nat) {st r : St}
    (h : DfStep st r) : Ext pats inc maxd st r := by
  obtain ⟨hp, _, _, t, ht, hpl⟩ := h
  exact ext_of_noexpand pats inc maxd hp
    ⟨t, ht, fun e he => plainEv_evOK (hpl e he), fun e he => plainEv_expandGid_none (hpl e he)⟩

theorem drain_ext (pats : List String) {inc : Bool} {maxd : Nat} (st : St) (depth : Nat)
    (hinc : inc = true) (hd : depth + 1 < maxd) :
    Ext pats inc maxd st (drainNewDeps st depth).2 := by
  refine ext_of_noexpand pats inc maxd rfl
    ⟨st.newDeps.map fun g => .depDrain g depth, rfl, ?_, ?_⟩
  · intro e he
    obtain ⟨g, _, rfl⟩ := List.mem_map.mp he
    exact ⟨hinc, hd⟩
  · intro e he
    obtain ⟨g, _, rfl⟩ := List.mem_map.mp he
    rfl

theorem ext_expand_step (pats : List String) (inc : Bool) (maxd : Nat) (st : St)
    (gid : String) (depth : Nat) (o : Origin)
    (hnotin : gid ∉ st.processed) (hd : depth < maxd)
    (ho : o = Origin.subgroup → _should_exclude pats gid = false) :
    Ext pats inc maxd st { st with processed := gid :: st.processed,
                                   trace := st.trace ++ [.expand gid depth o] } := by
  refine ⟨⟨[.expand gid depth o], rfl, ?_⟩, ?_, ?_, ?_⟩
  · intro e he
    rw [List.mem_singleton] at he
    subst he
    exact ⟨hd, ho⟩
  · intro g h
    exact List.mem_cons_of_mem _ h
  · intro g d o2 hg
    rcases List.mem_append.mp hg with h | h
    · exact Or.inl h
    · rw [List.mem_singleton] at h
      injection h with h1 h2 h3
      subst h1
      exact Or.inr hnotin
  · rintro ⟨hinv, hnd⟩
    constructor
    · intro g d o2 hg
      rcases List.mem_append.mp hg with h | h
      · exact List.mem_cons_of_mem _ (hinv g d o2 h)
      · rw [List.mem_singleton] at h
        injection h with h1 h2 h3
        subst h1
        exact List.mem_cons_self _ _
    · have hgid : gid ∉ expandGids st.trace := by
        intro hmem
        obtain ⟨d', o', hev⟩ := mem_expandGids.mp hmem
        exact hnotin (hinv gid d' o' hev)
      have : expandGids (st.trace ++ [Ev.expand gid depth o]) =
          expandGids st.trace ++ [gid] := by
        rw [expandGids_append]
        rfl
      rw [this]
      refine List.Nodup.append hnd (List.nodup_singleton gid) ?_
      intro a ha hb
      rw [List.mem_singleton] at hb
      subst hb
      exact hgid ha

theorem ext_foldl {α : Type} (pats : List String) (inc : Bool) (maxd : Nat)
    (f : St → α → St) (l : List α)
    (hf : ∀ x ∈ l, ∀ st, Ext pats inc maxd st (f st x)) :
    ∀ st, Ext pats inc maxd st (l.foldl f st) := by
  induction l with
  | nil => intro st; exact ext_refl
  | cons a rest ih =>
    intro st
    exact ext_trans (hf a (List.mem_cons_self a rest) st)
      (ih (fun x hx st => hf x (List.mem_cons_of_mem a hx) st) _)

theorem mem_keep_not_excluded (pats : List String) (l : List String) {x : String}
    (hx : x ∈ (if pats.isEmpty then l
               else l.filter fun a => !(_should_exclude pats (pathToGroupId a)))) :
    _should_exclude pats (pathToGroupId x) = false := by
  cases pats with
  | nil => rfl
  | cons p ps =>
    simp only [List.isEmpty_cons, Bool.false_eq_true, if_false] at hx
    have := (List.mem_filter.mp hx).2
    simpa using this

theorem ext_set_pending (pats : List String) (inc : Bool) (maxd : Nat)
    (st : St) (l : List String) :
    Ext pats inc maxd st { st with pending := l } :=
  ext_of_noexpand pats inc maxd rfl ⟨[], by simp, by simp, by simp⟩

theorem download_group_files_ext (env : Env) (inc : Bool) (maxd : Nat)
    (recurse : String → Nat → Origin → St → St)
    (hrec : ∀ g d o st,
      (o = Origin.subgroup → _should_exclude env.excludePatterns g = false) →
      Ext env.excludePatterns inc maxd st (recurse g d o st)) :
    ∀ (depth : Nat) (all_files : List String) (st : St),
      Ext env.excludePatterns inc maxd st
        (download_group_files env inc maxd recurse depth all_files st) := by
  intro depth all_files st
  unfold download_group_files
  by_cases h0 : all_files.isEmpty = true
  · simp only [h0, if_true]
    exact ext_refl
  · simp only [Bool.not_eq_true] at h0
    simp only [h0, Bool.false_eq_true, if_false]
    refine ext_trans (ext_set_pending _ _ _ st
      (all_files.filter fun f => !(st.downloaded.any (pyEq f)))) ?_
    refine ext_trans (dfStep_ext _ _ _ (dfStep_foldl env
      (all_files.filter fun f => !(st.downloaded.any (pyEq f)))
      { st with pending := all_files.filter fun f => !(st.downloaded.any (pyEq f)) })) ?_
    refine ext_trans (ext_set_pending _ _ _ _ []) ?_
    by_cases h1 : (inc && decide (depth < maxd - 1)) = true
    · simp only [h1, if_true]
      have hparts : inc = true ∧ decide (depth < maxd - 1) = true := by simpa using h1
      have hinc : inc = true := hparts.1
      have hlt : depth < maxd - 1 := of_decide_eq_true hparts.2
      have hd : depth + 1 < maxd := by omega
      refine ext_trans (drain_ext _ _ _ hinc hd) ?_
      exact ext_foldl _ _ _ _ _
        (fun x _ st2 => hrec x (depth + 1) .dep st2 (fun h => nomatch h)) _
    · simp only [Bool.not_eq_true] at h1
      simp only [h1, Bool.false_eq_true, if_false]
      exact ext_refl

theorem download_group_children_ext (env : Env) (inc : Bool) (maxd : Nat)
    (recurse : String → Nat → Origin → St → St)
    (hrec : ∀ g d o st,
      (o = Origin.subgroup → _should_exclude env.excludePatterns g = false) →
      Ext env.excludePatterns inc maxd st (recurse g d o st)) :
    ∀ (depth : Nat) (artifacts subgroups : List String) (st : St),
      (∀ sg ∈ subgroups, _should_exclude env.excludePatterns (pathToGroupId sg) = false) →
      Ext env.excludePatterns inc maxd st
        (download_group_children env inc maxd recurse depth artifacts subgroups st) := by
  intro depth artifacts subgroups st hsub
  unfold download_group_children
  have hfold : ∀ st2 : St,
      Ext env.excludePatterns inc maxd st2
        (subgroups.foldl (fun st sg => recurse (pathToGroupId sg) depth .subgroup st) st2) :=
    ext_foldl _ _ _ _ _ (fun x hx st2 => hrec (pathToGroupId x) depth .subgroup st2
      (fun _ => hsub x hx))
  by_cases h0 : (artifacts.isEmpty && !(subgroups.isEmpty)) = true
  · simp only [h0, if_true]
    exact hfold st
  · simp only [Bool.not_eq_true] at h0
    simp only [h0, Bool.false_eq_true, if_false]
    by_cases h1 : artifacts.isEmpty = true
    · simp only [h1, if_true]
      exact ext_refl
    · simp only [Bool.not_eq_true] at h1
      simp only [h1, Bool.false_eq_true, if_false]
      refine ext_trans (hfold st) ?_
      set st1 := subgroups.foldl (fun st sg => recurse (pathToGroupId sg) depth .subgroup st) st
        with hst1
      refine ext_trans (listStep_ext _ _ _ (collectVersions_listStep env artifacts st1)) ?_
      set pv := collectVersions env artifacts st1 with hpv
      refine ext_trans (listStep_ext _ _ _ (collectVersionFiles_listStep env pv.1 pv.2)) ?_
      set pf := collectVersionFiles env pv.1 pv.2 with hpf
      refine ext_trans (listStep_ext _ _ _ (collectMetadataFiles_listStep env artifacts pf.2)) ?_
      exact download_group_files_ext env inc maxd recurse hrec depth _ _

theorem download_group_body_ext (env : Env) (inc : Bool) (maxd : Nat)
    (recurse : String → Nat → Origin → St → St)
    (hrec : ∀ g d o st,
      (o = Origin.subgroup → _should_exclude env.excludePatterns g = false) →
      Ext env.excludePatterns inc maxd st (recurse g d o st)) :
    ∀ (gid : String) (depth : Nat) (o : Origin) (st : St),
      (o = Origin.subgroup → _should_exclude env.excludePatterns gid = false) →
      Ext env.excludePatterns inc maxd st
        (download_group_body env inc maxd recurse gid depth o st) := by
  intro gid depth o st ho
  unfold download_group_body
  by_cases h0 : st.processed.any (pyEq gid) = true
  · simp only [h0, if_true]
    exact ext_refl
  · simp only [Bool.not_eq_true] at h0
    simp only [h0, Bool.false_eq_true, if_false]
    by_cases h1 : maxd ≤ depth
    · rw [if_pos h1]
      exact ext_refl
    · rw [if_neg h1]
      have hnotin : gid ∉ st.processed := fun hm => by
        rw [any_pyEq_iff.mpr hm] at h0
        exact Bool.true_eq_false.mp h0
      have hd : depth < maxd := by omega
      refine ext_trans (ext_expand_step env.excludePatterns inc maxd st gid depth o
        hnotin hd ho) ?_
      refine ext_trans (listStep_ext _ _ _
        (get_artifacts_list_listStep env _ (group_id_to_path gid))) ?_
      exact download_group_children_ext env inc maxd recurse hrec depth _ _ _
        (fun sg hsg => mem_keep_not_excluded env.excludePatterns _ hsg)

/-- Master soundness of download_group: every execution only evolves
the state along Ext. -/
theorem download_group_ext (env : Env) (inc : Bool) (maxd : Nat) :
    ∀ (fuel : Nat) (gid : String) (depth : Nat) (o : Origin) (st : St),
      (o = Origin.subgroup → _should_exclude env.excludePatterns gid = false) →
      Ext env.excludePatterns inc maxd st (download_group env inc maxd fuel gid depth o st) := by
  intro fuel
  induction fuel with
  | zero =>
    intro gid depth o st ho
    exact ext_refl
  | succ n ih =>
    intro gid depth o st ho
    exact download_group_body_ext env inc maxd _
      (fun g d o2 st2 h => ih g d o2 st2 h) gid depth o st ho

/-! ### Queue conservation at the depth bound -/


theorem ndext_refl {st : St} : NDext st st := ⟨[], by simp⟩

theorem ndext_trans {s₁ s₂ s₃ : St} (h₁ : NDext s₁ s₂) (h₂ : NDext s₂ s₃) :
    NDext s₁ s₃ := by
  obtain ⟨l₁, h₁⟩ := h₁
  obtain ⟨l₂, h₂⟩ := h₂
  exact ⟨l₁ ++ l₂, by rw [h₂, h₁, List.append_assoc]⟩

theorem nd_foldl {α : Type} (f : St → α → St) (l : List α)
    (hf : ∀ x ∈ l, ∀ st, NDext st (f st x)) :
    ∀ st, NDext st (l.foldl f st) := by
  induction l with
  | nil => intro st; exact ndext_refl
  | cons a rest ih =>
    intro st
    exact ndext_trans (hf a (List.mem_cons_self a rest) st)
      (ih (fun x hx st => hf x (List.mem_cons_of_mem a hx) st) _)

theorem listStep_nd {st r : St} (h : ListStep st r) : NDext st r :=
  ⟨[], by rw [h.2.2.1, List.append_nil]⟩

theorem dfStep_nd {st r : St} (h : DfStep st r) : NDext st r := h.2.2.1

theorem download_group_files_nd (env : Env) (inc : Bool) (maxd : Nat)
    (recurse : String → Nat → Origin → St → St)
    (depth : Nat) (all_files : List String) (st : St) (hcond : maxd ≤ depth + 1) :
    NDext st (download_group_files env inc maxd recurse depth all_files st) := by
  unfold download_group_files
  by_cases h0 : all_files.isEmpty = true
  · simp only [h0, if_true]
    exact ndext_refl
  · simp only [Bool.not_eq_true] at h0
    simp only [h0, Bool.false_eq_true, if_false]
    have hnlt : ¬(depth < maxd - 1) := by omega
    have hfalse : (inc && decide (depth < maxd - 1)) = false := by
      simp [decide_eq_false hnlt]
    simp only [hfalse, Bool.false_eq_true, if_false]
    refine ndext_trans (show NDext st
      { st with pending := all_files.filter fun f => !(st.downloaded.any (pyEq f)) } from
      ⟨[], by simp⟩) ?_
    refine ndext_trans (dfStep_nd (dfStep_foldl env
      (all_files.filter fun f => !(st.downloaded.any (pyEq f)))
      { st with pending := all_files.filter fun f => !(st.downloaded.any (pyEq f)) })) ?_
    exact ⟨[], by simp⟩

theorem download_group_children_nd (env : Env) (inc : Bool) (maxd : Nat)
    (recurse : String → Nat → Origin → St → St)
    (depth : Nat) (artifacts subgroups : List String) (st : St)
    (hcond : maxd ≤ depth + 1)
    (hrec : ∀ g o st2, NDext st2 (recurse g depth o st2)) :
    NDext st (download_group_children env inc maxd recurse depth artifacts subgroups st) := by
  unfold download_group_children
  have hfold : ∀ st2 : St,
      NDext st2 (subgroups.foldl (fun st sg => recurse (pathToGroupId sg) depth .subgroup st) st2) :=
    nd_foldl _ _ (fun x _ st2 => hrec (pathToGroupId x) .subgroup st2)
  by_cases h0 : (artifacts.isEmpty && !(subgroups.isEmpty)) = true
  · simp only [h0, if_true]
    exact hfold st
  · simp only [Bool.not_eq_true] at h0
    simp only [h0, Bool.false_eq_true, if_false]
    by_cases h1 : artifacts.isEmpty = true
    · simp only [h1, if_true]
      exact ndext_refl
    · simp only [Bool.not_eq_true] at h1
      simp only [h1, Bool.false_eq_true, if_false]
      refine ndext_trans (hfold st) ?_
      set st1 := subgroups.foldl (fun st sg => recurse (pathToGroupId sg) depth .subgroup st) st
        with hst1
      refine ndext_trans (listStep_nd (collectVersions_listStep env artifacts st1)) ?_
      set pv := collectVersions env artifacts st1 with hpv
      refine ndext_trans (listStep_nd (collectVersionFiles_listStep env pv.1 pv.2)) ?_
      set pf := collectVersionFiles env pv.1 pv.2 with hpf
      refine ndext_trans (listStep_nd (collectMetadataFiles_listStep env artifacts pf.2)) ?_
      exact download_group_files_nd env inc maxd recurse depth _ _ hcond

/-- At or beyond the last expanded depth level, download_group only
appends to the new_dependencies queue: discovered dependencies are
recorded and nothing is ever dequeued. -/
theorem download_group_nd (env : Env) (inc : Bool) (maxd : Nat) :
    ∀ (fuel : Nat) (gid : String) (depth : Nat) (o : Origin) (st : St),
      maxd ≤ depth + 1 →
      NDext st (download_group env inc maxd fuel gid depth o st) := by
  intro fuel
  induction fuel with
  | zero =>
    intro gid depth o st hcond
    exact ndext_refl
  | succ n ih =>
    intro gid depth o st hcond
    show NDext st (download_group_body env inc maxd
      (download_group env inc maxd n) gid depth o st)
    unfold download_group_body
    by_cases h0 : st.processed.any (pyEq gid) = true
    · simp only [h0, if_true]
      exact ndext_refl
    · simp only [Bool.not_eq_true] at h0
      simp only [h0, Bool.false_eq_true, if_false]
      by_cases h1 : maxd ≤ depth
      · rw [if_pos h1]
        exact ndext_refl
      · rw [if_neg h1]
        refine ndext_trans (show NDext st
          { st with processed := gid :: st.processed,
                    trace := st.trace ++ [Ev.expand gid depth o] } from ⟨[], by simp⟩) ?_
        refine ndext_trans (listStep_nd
          (get_artifacts_list_listStep env _ (group_id_to_path gid))) ?_
        exact download_group_children_nd env inc maxd _ depth _ _ _ hcond
          (fun g o st2 => ih g depth o st2 hcond)

/-! ### Facts about download_file used by the claim theorems -/

theorem pushPomDeps_log (env : Env) (st : St) (fp : String) :
    (pushPomDeps env st fp).log = st.log := by
  unfold pushPomDeps
  split <;> rfl

theorem pushPomDeps_downloaded (env : Env) (st : St) (fp : String) :
    (pushPomDeps env st fp).downloaded = st.downloaded := by
  unfold pushPomDeps
  split <;> rfl

theorem pushPomDeps_trace (env : Env) (st : St) (fp : String) :
    (pushPomDeps env st fp).trace = st.trace := by
  unfold pushPomDeps
  split <;> rfl

theorem download_file_of_done (env : Env) (st : St) (fp : String)
    (h : st.downloaded.any (pyEq fp) = true) :
    download_file env st fp = st := by
  unfold download_file
  rw [if_pos h]

theorem download_file_fresh_net (env : Env) (st : St) (fp : String)
    (h0 : st.downloaded.any (pyEq fp) = false)
    (h1 : env.onDisk fp = false) (h2 : env.fileOk fp = true) :
    (download_file env st fp).trace = st.trace ++ [Ev.fetch fp, Ev.write fp] ∧
    (download_file env st fp).downloaded = fp :: st.downloaded := by
  unfold download_file
  simp only [h0, Bool.false_eq_true, if_false, h1, h2, if_true]
  by_cases h3 : env.writeOk fp = true
  · simp only [h3, if_true, pushPomDeps_trace, pushPomDeps_downloaded]
    exact ⟨by simp, by simp⟩
  · simp only [Bool.not_eq_true] at h3
    simp only [h3, Bool.false_eq_true, if_false]
    exact ⟨by simp, by simp⟩

theorem raceDownload_of_done (env : Env) :
    ∀ (n : Nat) (fp : String) (st : St), st.downloaded.any (pyEq fp) = true →
      raceDownload env n fp st = st := by
  intro n
  induction n with
  | zero =>
    intro fp st h
    rfl
  | succ m ih =>
    intro fp st h
    show ((List.replicate (m + 1) fp).foldl (download_file env) st) = st
    rw [List.replicate_succ, List.foldl_cons, download_file_of_done env st fp h]
    exact ih fp st h

/-! ### Claim C1 -/

/-- Claim C1, counterexample: with a failing fetch and an initially
empty state, download_file leaves the durable log empty but has already
marked the path in the in-memory completed-set downloaded_files before
the fetch, so the completed-set is not unchanged as the claim states.
The trace shows the fetch was attempted and failed with no write. -/
theorem C1_counterexample :
    (download_file envFetchFail st0 "a/x.jar").downloaded = ["a/x.jar"] ∧
    (download_file envFetchFail st0 "a/x.jar").log = [] ∧
    (download_file envFetchFail st0 "a/x.jar").trace = [Ev.fetch "a/x.jar"] := by
  exact ⟨by decide, by decide, by decide⟩

/-- Claim C1 as amended: download_file appends the path to the durable
download log only after the local write of the fetched body has fully
completed (or the file was already present on disk); a failed fetch or
a failure mid-write leaves the durable log unchanged; the in-memory
completed-set, however, is marked under the lock before the fetch
begins, so after any call the path is in the in-memory set. -/
theorem C1_log_only_after_write (env : Env) (st : St) (fp : String)
    (hnew : st.downloaded.any (pyEq fp) = false) :
    (env.onDisk fp = false → env.fileOk fp = false →
       (download_file env st fp).log = st.log) ∧
    (env.onDisk fp = false → env.fileOk fp = true → env.writeOk fp = false →
       (download_file env st fp).log = st.log) ∧
    (env.onDisk fp = false → env.fileOk fp = true → env.writeOk fp = true →
       (download_file env st fp).log = st.log ++ [fp]) ∧
    (env.onDisk fp = true → (download_file env st fp).log = st.log ++ [fp]) ∧
    fp ∈ (download_file env st fp).downloaded := by
  refine ⟨?_, ?_, ?_, ?_, ?_⟩
  · intro h1 h2
    unfold download_file
    simp [hnew, h1, h2]
  · intro h1 h2 h3
    unfold download_file
    simp [hnew, h1, h2, h3]
  · intro h1 h2 h3
    unfold download_file
    simp [hnew, h1, h2, h3, pushPomDeps_log]
  · intro h1
    unfold download_file
    simp [hnew, h1, pushPomDeps_log]
  · unfold download_file
    simp only [hnew, Bool.false_eq_true, if_false]
    by_cases h1 : env.onDisk fp = true
    · simp [h1, pushPomDeps_downloaded]
    · simp only [Bool.not_eq_true] at h1
      by_cases h2 : env.fileOk fp = true
      · by_cases h3 : env.writeOk fp = true
        · simp [h1, h2, h3, pushPomDeps_downloaded]
        · simp only [Bool.not_eq_true] at h3
          simp [h1, h2, h3]
      · simp only [Bool.not_eq_true] at h2
        simp [h1, h2]

/-- Witness for C1: on a successful fresh download the log gains the
path, and the path is in the completed-set. -/
theorem C1_witness :
    (download_file envOkAll st0 "a/x.jar").log = st0.log ++ ["a/x.jar"] ∧
    "a/x.jar" ∈ (download_file envOkAll st0 "a/x.jar").downloaded :=
  ⟨(C1_log_only_after_write envOkAll st0 "a/x.jar" (by decide)).2.2.1
      (by decide) (by decide) (by decide),
   (C1_log_only_after_write envOkAll st0 "a/x.jar" (by decide)).2.2.2.2⟩

/-! ### Claim C4 -/

/-- Claim C4: a path already in the completed-set makes download_file
an immediate no-op (state unchanged, so no fetch and no write), and
any number of calls racing on one fresh path perform exactly one
network fetch and one disk write for it. -/
theorem C4_skip_and_no_double_download (env : Env) (st : St) (fp : String) (n : Nat) :
    (st.downloaded.any (pyEq fp) = true → download_file env st fp = st) ∧
    (st.downloaded.any (pyEq fp) = false → env.onDisk fp = false →
     env.fileOk fp = true → 1 ≤ n →
       (raceDownload env n fp st).trace.count (Ev.fetch fp) =
         st.trace.count (Ev.fetch fp) + 1 ∧
       (raceDownload env n fp st).trace.count (Ev.write fp) =
         st.trace.count (Ev.write fp) + 1) := by
  constructor
  · exact download_file_of_done env st fp
  · intro h0 h1 h2 hn
    obtain ⟨m, rfl⟩ : ∃ m, n = m + 1 := ⟨n - 1, by omega⟩
    have hstep := download_file_fresh_net env st fp h0 h1 h2
    have hdone : (download_file env st fp).downloaded.any (pyEq fp) = true := by
      rw [any_pyEq_iff, hstep.2]
      exact List.mem_cons_self _ _
    have hr : raceDownload env (m + 1) fp st = download_file env st fp := by
      show ((List.replicate (m + 1) fp).foldl (download_file env) st) =
        download_file env st fp
      rw [List.replicate_succ, List.foldl_cons]
      exact raceDownload_of_done env m fp _ hdone
    rw [hr, hstep.1]
    constructor
    · rw [List.count_append]
      simp [List.count_cons]
    · rw [List.count_append]
      simp [List.count_cons]

/-- Witness for C4: three racing calls on a fresh path produce exactly
one fetch event and one write event. -/
theorem C4_witness :
    (raceDownload envOkAll 3 "a/y.jar" st0).trace.count (Ev.fetch "a/y.jar") =
      st0.trace.count (Ev.fetch "a/y.jar") + 1 ∧
    (raceDownload envOkAll 3 "a/y.jar" st0).trace.count (Ev.write "a/y.jar") =
      st0.trace.count (Ev.write "a/y.jar") + 1 :=
  (C4_skip_and_no_double_download envOkAll st0 "a/y.jar" 3).2
    (by decide) (by decide) (by decide) (by decide)

/-! ### Claim C10 -/

/-- Claim C10: a resumed run (non-empty accepted snapshot) only drains
the restored pending list: dependency groupIds extracted from
descriptors are pushed onto the new_dependencies queue and never
dequeued, no expansion happens (no call of download_group is observed:
no expand and no depDrain event is added), and the set of expanded
groups is unchanged. -/
theorem C10_resume_only_drains (env : Env) (inc : Bool) (maxd fuel : Nat)
    (gid : String) (st : St) (hpend : st.pending ≠ []) :
    (∃ l, (run env inc maxd fuel true gid st).newDeps = st.newDeps ++ l) ∧
    (run env inc maxd fuel true gid st).processed = st.processed ∧
    (∀ g d o, Ev.expand g d o ∈ (run env inc maxd fuel true gid st).trace →
       Ev.expand g d o ∈ st.trace) ∧
    (∀ g d, Ev.depDrain g d ∈ (run env inc maxd fuel true gid st).trace →
       Ev.depDrain g d ∈ st.trace) := by
  have hrun : run env inc maxd fuel true gid st = _resume_download env st := by
    unfold run
    rfl
  have hne : st.pending.isEmpty = false := by
    cases hp : st.pending with
    | nil => exact absurd hp hpend
    | cons a l => rfl
  have hres : _resume_download env st =
      { st.pending.foldl (download_file env) st with pending := [] } := by
    unfold _resume_download
    rw [hne]
    rfl
  have hdf : DfStep st (st.pending.foldl (download_file env) st) :=
    dfStep_foldl env st.pending st
  obtain ⟨hproc, hpend2, ⟨l, hnd⟩, ⟨t, ht, hpl⟩⟩ := hdf
  rw [hrun, hres]
  refine ⟨⟨l, hnd⟩, hproc, ?_, ?_⟩
  · intro g d o hg
    simp only [ht] at hg
    rcases List.mem_append.mp hg with h | h
    · exact h
    · have := hpl _ h
      simp [plainEv] at this
  · intro g d hg
    simp only [ht] at hg
    rcases List.mem_append.mp hg with h | h
    · exact h
    · have := hpl _ h
      simp [plainEv] at this

/-- Witness for C10: resuming a one-file snapshot leaves the expanded
set unchanged. -/
theorem C10_witness :
    (run envOkAll true 2 5 true "g" stPend).processed = stPend.processed :=
  (C10_resume_only_drains envOkAll true 2 5 "g" stPend (by decide)).2.1

/-! ### Claim C3 -/

/-- Claim C3: the attempt sequence of try_request_with_mirrors is one
randomly chosen mirror followed by the canonical origin only on that
attempt failing; with no mirrors the origin is the only attempt; no
base is retried; origin success after mirror failure is a success of
the call; exhausting all bases returns none.  The random.choice draw is
the pick index: every mirror is the chosen one for some pick. -/
theorem C3_mirror_then_origin (mirrors : List String) (base_url : String)
    (net : String → String → ReqOutcome) (pick : Nat) (path : String) :
    (mirrors = [] → attemptedBases mirrors base_url net pick path = [base_url]) ∧
    (∀ mirror, chosenMirror mirrors pick = some mirror →
      mirror ∈ mirrors ∧
      (∀ s, attemptBase net mirror path = some s →
         try_request_with_mirrors mirrors base_url net pick path = some (s, mirror) ∧
         attemptedBases mirrors base_url net pick path = [mirror]) ∧
      (attemptBase net mirror path = none →
         attemptedBases mirrors base_url net pick path = [mirror, base_url] ∧
         (∀ s, attemptBase net base_url path = some s →
            try_request_with_mirrors mirrors base_url net pick path = some (s, base_url)) ∧
         (attemptBase net base_url path = none →
            try_request_with_mirrors mirrors base_url net pick path = none))) ∧
    (mirrors = [] → attemptBase net base_url path = none →
       try_request_with_mirrors mirrors base_url net pick path = none) ∧
    (∀ i : Fin mirrors.length, chosenMirror mirrors i.val = some (mirrors.get i)) := by
  refine ⟨?_, ?_, ?_, ?_⟩
  · rintro rfl
    unfold attemptedBases try_request_run chosenMirror
    cases attemptBase net base_url path <;> rfl
  · intro mirror hch
    constructor
    · cases mirrors with
      | nil => exact absurd hch (by simp [chosenMirror])
      | cons m ms =>
        have : mirror = (m :: ms).get
            ⟨pick % (ms.length + 1), Nat.mod_lt _ (Nat.succ_pos _)⟩ := by
          simpa [chosenMirror] using hch.symm
        rw [this]
        exact List.get_mem _ _ _
    · constructor
      · intro s hs
        unfold try_request_with_mirrors attemptedBases try_request_run
        rw [hch]
        simp [hs]
      · intro hn
        unfold try_request_with_mirrors attemptedBases try_request_run
        rw [hch]
        simp only [hn]
        refine ⟨?_, ?_, ?_⟩
        · cases attemptBase net base_url path <;> rfl
        · intro s hs
          simp [hs]
        · intro hno
          simp [hno]
  · rintro rfl hn
    unfold try_request_with_mirrors try_request_run chosenMirror
    simp only [hn]
  · intro i
    cases mirrors with
    | nil => exact absurd i.isLt (by simp)
    | cons m ms =>
      have hlen : i.val % (ms.length + 1) = i.val := Nat.mod_eq_of_lt i.isLt
      show some ((m :: ms).get ⟨i.val % (ms.length + 1), Nat.mod_lt _ (Nat.succ_pos _)⟩) =
        some ((m :: ms).get i)
      have hfin : (⟨i.val % (ms.length + 1), Nat.mod_lt _ (Nat.succ_pos _)⟩ :
          Fin (m :: ms).length) = i := Fin.ext hlen
      rw [hfin]

/-- Witness for C3: with one always-failing mirror and a succeeding
origin, the mirror is attempted first, the origin second, and the call
succeeds via the origin. -/
theorem C3_witness :
    try_request_with_mirrors ["https://mirror/"] "https://origin/"
        netMirrorFailOriginOk 0 "a/x.jar" = some (200, "https://origin/") ∧
    attemptedBases ["https://mirror/"] "https://origin/"
        netMirrorFailOriginOk 0 "a/x.jar" = ["https://mirror/", "https://origin/"] := by
  have h := C3_mirror_then_origin ["https://mirror/"] "https://origin/"
    netMirrorFailOriginOk 0 "a/x.jar"
  have h2 := (h.2.1 "https://mirror/" (by decide)).2.2 (by decide)
  exact ⟨h2.2.1 200 (by decide), h2.1⟩

/-! ### Claim C5 -/

/-- Claim C5, counterexample: a 404 (the claimed NotFound class) and a
503 (the claimed Transient class) at the origin produce the identical
result none; the value returned to the caller carries no
classification of the failure. -/
theorem C5_counterexample :
    try_request_with_mirrors [] "https://origin/" (fun _ _ => .resp 404) 0 "a/x.jar" =
      try_request_with_mirrors [] "https://origin/" (fun _ _ => .resp 503) 0 "a/x.jar" ∧
    try_request_with_mirrors [] "https://origin/" (fun _ _ => .resp 404) 0 "a/x.jar" =
      none := by
  exact ⟨by decide, by decide⟩

/-- Claim C5 as amended: every fetch-attempt failure, whether a
transport error or any 4xx or 5xx status, is handled identically: a
mirror failure silently falls through to the origin, and when every
base fails the caller receives none, independent of the status class,
so no Transient versus NotFound distinction reaches the caller. -/
theorem C5_no_error_classification (mirrors : List String) (base_url : String)
    (pick : Nat) (path : String) (s s2 : Nat)
    (h4 : 400 ≤ s) (h6 : s < 600) (h4b : 400 ≤ s2) (h6b : s2 < 600) :
    try_request_with_mirrors mirrors base_url (fun _ _ => .resp s) pick path = none ∧
    try_request_with_mirrors mirrors base_url (fun _ _ => .resp s) pick path =
      try_request_with_mirrors mirrors base_url (fun _ _ => .resp s2) pick path := by
  have hab : ∀ (s3 : Nat), 400 ≤ s3 → s3 < 600 → ∀ b : String,
      attemptBase (fun _ _ => .resp s3) b path = none := by
    intro s3 ha hb b
    simp only [attemptBase]
    rw [if_pos ⟨ha, hb⟩]
  have hres : ∀ (s3 : Nat), 400 ≤ s3 → s3 < 600 →
      try_request_with_mirrors mirrors base_url (fun _ _ => .resp s3) pick path = none := by
    intro s3 ha hb
    unfold try_request_with_mirrors try_request_run
    cases hch : chosenMirror mirrors pick with
    | none => simp [hab s3 ha hb]
    | some mirror => simp [hab s3 ha hb]
  refine ⟨hres s h4 h6, ?_⟩
  rw [hres s h4 h6, hres s2 h4b h6b]

/-- Witness for C5: both a 404 and a 503 at every base yield none. -/
theorem C5_witness :
    try_request_with_mirrors ["https://m/"] "https://o/" (fun _ _ => .resp 404) 0 "p" = none ∧
    try_request_with_mirrors ["https://m/"] "https://o/" (fun _ _ => .resp 404) 0 "p" =
      try_request_with_mirrors ["https://m/"] "https://o/" (fun _ _ => .resp 503) 0 "p" :=
  C5_no_error_classification ["https://m/"] "https://o/" 0 "p" 404 503
    (by decide) (by decide) (by decide) (by decide)

/-! ### Claim C6 -/

theorem mem_dedupStr {x : String} : ∀ {l : List String}, x ∈ dedupStr l → x ∈ l := by
  intro l
  induction l with
  | nil =>
    intro h
    exact absurd h (List.not_mem_nil x)
  | cons a rest ih =>
    intro h
    unfold dedupStr at h
    by_cases ha : rest.any (pyEq a) = true
    · rw [if_pos ha] at h
      exact List.mem_cons_of_mem a (ih h)
    · rw [if_neg ha] at h
      rcases List.mem_cons.mp h with h | h
      · exact h ▸ List.mem_cons_self a rest
      · exact List.mem_cons_of_mem a (ih h)

/-- Claim C6: parse_pom_dependencies is best-effort: an unparseable
body yields the empty list rather than an error, and every extracted
groupId is a literal, never a placeholder that begins with the
variable-substitution marker. -/
theorem C6_pom_parse_best_effort :
    parse_pom_dependencies none = [] ∧
    ∀ (parsed : Option (List (Option String))) (g : String),
      g ∈ parse_pom_dependencies parsed → pyStartsWith g "$\x7b" = false := by
  constructor
  · rfl
  · intro parsed g hg
    cases parsed with
    | none => exact absurd hg (List.not_mem_nil g)
    | some deps =>
      have hg2 := mem_dedupStr hg
      obtain ⟨g0, hg0, heq⟩ := List.mem_filterMap.mp hg2
      cases g0 with
      | none => exact absurd heq (by simp)
      | some t =>
        have heq2 : (if ((!(pyEq t "")) && (!(pyStartsWith t "$\x7b"))) = true
            then some t else none) = some g := heq
        by_cases hc : ((!(pyEq t "")) && (!(pyStartsWith t "$\x7b"))) = true
        · rw [if_pos hc] at heq2
          have hparts : pyEq t "" = false ∧ pyStartsWith t "$\x7b" = false := by
            simpa using hc
          have ht : t = g := by simpa using heq2
          exact ht ▸ hparts.2
        · rw [if_neg hc] at heq2
          exact absurd heq2 (by simp)

/-- Witness for C6: a parse result with one literal groupId, one
placeholder and one missing groupId yields only the literal, and the
literal does not start with the marker. -/
theorem C6_witness : pyStartsWith "junit" "$\x7b" = false :=
  C6_pom_parse_best_effort.2
    (some [some "junit", some "$\x7bproject.groupId\x7d", none]) "junit" (by decide)

/-! ### Claim C9 -/

theorem suffix_of_suffix_length_le {α : Type} {l₁ l₂ l₃ : List α}
    (h₁ : l₁ <:+ l₃) (h₂ : l₂ <:+ l₃) (h : l₁.length ≤ l₂.length) : l₁ <:+ l₂ := by
  rw [← List.reverse_prefix] at h₁ h₂ ⊢
  exact List.prefix_of_prefix_length_le h₁ h₂ (by simpa)

/-- A suffix containing no slash cannot appear across the slash that
joins a directory path to a child name: the joined path ends with such
a suffix only if the child name does. -/
theorem pyEndsWith_append_slash (vp h suf : String)
    (hno : ('/' : Char) ∉ suf.data)
    (hsuf : pyEndsWith h suf = false) :
    pyEndsWith (vp ++ "/" ++ h) suf = false := by
  unfold pyEndsWith at hsuf ⊢
  have hdata : (vp ++ "/" ++ h).data = vp.data ++ '/' :: h.data := by
    cases vp with
    | mk lv =>
      cases h with
      | mk lh => simp [String.data_append]
  rw [hdata]
  by_contra hcontra
  rw [Bool.not_eq_false] at hcontra
  have hsfx : suf.data <:+ vp.data ++ '/' :: h.data := by
    rwa [List.isSuffixOf_iff_suffix] at hcontra
  have hslash : ('/' :: h.data) <:+ vp.data ++ '/' :: h.data :=
    List.suffix_append vp.data ('/' :: h.data)
  by_cases hlen : suf.data.length ≤ h.data.length
  · have hh : h.data <:+ vp.data ++ '/' :: h.data :=
      (List.suffix_cons '/' h.data).trans hslash
    have hsub : suf.data <:+ h.data := suffix_of_suffix_length_le hsfx hh hlen
    have : List.isSuffixOf suf.data h.data = true := List.isSuffixOf_iff_suffix.mpr hsub
    rw [hsuf] at this
    exact Bool.false_ne_true this
  · push_neg at hlen
    have hin : ('/' :: h.data) <:+ suf.data :=
      suffix_of_suffix_length_le hslash hsfx (by simpa using hlen)
    have hmem : ('/' : Char) ∈ suf.data :=
      hin.sublist.subset (List.mem_cons_self _ _)
    exact hno hmem

/-- Claim C9, counterexample: get_artifact_metadata emits the checksum
companion maven-metadata.xml.sha1 of the artifact-level metadata as a
downloadable file (its loop skips only .asc signatures), so a path
with a checksum suffix is emitted by a listing parser and fetched by
the crawl. -/
theorem C9_counterexample :
    get_artifact_metadata_links "g/a" ["maven-metadata.xml", "maven-metadata.xml.sha1"] =
      ["g/a/maven-metadata.xml", "g/a/maven-metadata.xml.sha1"] ∧
    pyEndsWith "g/a/maven-metadata.xml.sha1" ".sha1" = true := by
  exact ⟨by decide, by decide⟩

/-- Claim C9 as amended: the version-directory listing parser
get_files_in_version never emits a path carrying any of the checksum
or signature suffixes .md5, .sha1, .sha256, .sha512, .asc; the
artifact-metadata parser get_artifact_metadata excludes only .asc
signature files, deliberately keeping the checksum companions of
maven-metadata.xml, which are then fetched. -/
theorem C9_checksum_suffix_filtering :
    (∀ (version_path : String) (hrefs : List String) (f : String),
       f ∈ get_files_in_version_links version_path hrefs →
       ∀ suf ∈ checksumSuffixes, pyEndsWith f suf = false) ∧
    (∀ (artifact_path : String) (hrefs : List String) (f : String),
       f ∈ get_artifact_metadata_links artifact_path hrefs →
       pyEndsWith f ".asc" = false) := by
  constructor
  · intro vp hrefs f hf suf hsuf
    obtain ⟨h0, hmem, heq⟩ := List.mem_filterMap.mp hf
    by_cases hc : ((!(pyEq h0 "")) && (!(pyEndsWith h0 "/")) && (!(pyEq h0 "../")) &&
        (!(hasChecksumSuffix h0))) = true
    · rw [if_pos hc] at heq
      have hfeq : vp ++ "/" ++ h0 = f := by simpa using heq
      have hchk : hasChecksumSuffix h0 = false := by
        have := hc
        simp only [Bool.and_eq_true, Bool.not_eq_true'] at this
        exact this.2
      have hends : ∀ s2 ∈ checksumSuffixes, pyEndsWith h0 s2 = false := by
        intro s2 hs2
        by_contra hcon
        rw [Bool.not_eq_false] at hcon
        have : hasChecksumSuffix h0 = true := by
          unfold hasChecksumSuffix
          exact List.any_eq_true.mpr ⟨s2, hs2, hcon⟩
        rw [hchk] at this
        exact Bool.false_ne_true this
      have hnoslash : ('/' : Char) ∉ suf.data := by
        have : suf = ".md5" ∨ suf = ".sha1" ∨ suf = ".sha256" ∨ suf = ".sha512" ∨
            suf = ".asc" := by simpa [checksumSuffixes] using hsuf
        rcases this with rfl | rfl | rfl | rfl | rfl <;> decide
      exact hfeq ▸ pyEndsWith_append_slash vp h0 suf hnoslash (hends suf hsuf)
    · rw [if_neg hc] at heq
      exact absurd heq (by simp)
  · intro ap hrefs f hf
    obtain ⟨h0, hmem, heq⟩ := List.mem_filterMap.mp hf
    by_cases hc : ((!(pyEq h0 "")) && pyStartsWith h0 "maven-metadata" &&
        (!(pyEndsWith h0 ".asc"))) = true
    · rw [if_pos hc] at heq
      have hfeq : ap ++ "/" ++ h0 = f := by simpa using heq
      have hasc : pyEndsWith h0 ".asc" = false := by
        have := hc
        simp only [Bool.and_eq_true, Bool.not_eq_true'] at this
        exact this.2
      have hnoslash : ('/' : Char) ∉ (".asc" : String).data := by decide
      exact hfeq ▸ pyEndsWith_append_slash ap h0 ".asc" hnoslash hasc
    · rw [if_neg hc] at heq
      exact absurd heq (by simp)

/-- Witness for C9: a concrete jar path emitted by the version listing
carries no .md5 suffix, and a metadata path no .asc suffix. -/
theorem C9_witness :
    pyEndsWith "g/a/1.0/x.jar" ".md5" = false ∧
    pyEndsWith "g/a/maven-metadata.xml.sha1" ".asc" = false :=
  ⟨C9_checksum_suffix_filtering.1 "g/a/1.0" ["x.jar"] "g/a/1.0/x.jar" (by decide)
     ".md5" (by decide),
   C9_checksum_suffix_filtering.2 "g/a" ["maven-metadata.xml.sha1"]
     "g/a/maven-metadata.xml.sha1" (by decide)⟩

/-! ### Claim C7 -/

/-- Claim C7: dependency expansion is depth-bounded and deduplicated.
In any download_group run from a fresh trace: every expansion happens
strictly below max_depth and concerns a group not already in the
process-lifetime visited set at entry; no group is ever expanded twice;
a dependency is drained (a precondition of its expansion) only at a
depth strictly below max_depth - 1; and an invocation at or beyond the
bound only appends to the new_dependencies queue, so coordinates
discovered there are recorded but never dequeued for expansion. -/
theorem C7_depth_bound_and_dedup (env : Env) (inc : Bool) (maxd fuel : Nat)
    (gid : String) (depth : Nat) (o : Origin) (st : St)
    (htrace : st.trace = [])
    (ho : o = Origin.subgroup → _should_exclude env.excludePatterns gid = false) :
    (∀ g d o2, Ev.expand g d o2 ∈ (download_group env inc maxd fuel gid depth o st).trace →
       d < maxd ∧ g ∉ st.processed) ∧
    (expandGids (download_group env inc maxd fuel gid depth o st).trace).Nodup ∧
    (∀ g d, Ev.depDrain g d ∈ (download_group env inc maxd fuel gid depth o st).trace →
       d + 1 < maxd) ∧
    (maxd ≤ depth + 1 →
       ∃ l, (download_group env inc maxd fuel gid depth o st).newDeps = st.newDeps ++ l) := by
  obtain ⟨⟨t, ht, hok⟩, hproc, hnew, hinv⟩ :=
    download_group_ext env inc maxd fuel gid depth o st ho
  refine ⟨?_, ?_, ?_, ?_⟩
  · intro g d o2 hg
    constructor
    · have hgt : Ev.expand g d o2 ∈ t := by
        rw [ht, htrace] at hg
        simpa using hg
      exact (hok _ hgt).1
    · rcases hnew g d o2 hg with h | h
      · rw [htrace] at h
        exact absurd h (List.not_mem_nil _)
      · exact h
  · exact (hinv ⟨fun g d o2 hg => absurd (htrace ▸ hg) (List.not_mem_nil _),
      by rw [htrace]; exact List.nodup_nil⟩).2
  · intro g d hg
    have hgt : Ev.depDrain g d ∈ t := by
      rw [ht, htrace] at hg
      simpa using hg
    exact (hok _ hgt).2
  · exact fun hc => download_group_nd env inc maxd fuel gid depth o st hc

/-- Witness for C7: the concrete crawl of envPom with max_depth 2
expands g and then dep.g, each exactly once. -/
theorem C7_witness :
    (expandGids (download_group envPom true 2 5 "g" 0 .seed st0).trace).Nodup :=
  (C7_depth_bound_and_dedup envPom true 2 5 "g" 0 .seed st0 rfl
    (fun h => nomatch h)).2.1

/-! ### Claim C8 -/

/-- Claim C8, counterexample: with exclusion pattern bad, the child
directory a/bad of group a is classified by _is_artifact_directory
before the exclusion filter runs, so a network request against the
excluded path a/bad/ is issued although a.bad matches the pattern; the
claim that no network call is ever made for an excluded item is false
on the code. -/
theorem C8_counterexample :
    Ev.fetch "a/bad/" ∈ (download_group envExcl true 2 5 "a" 0 .seed st0).trace ∧
    _should_exclude ["bad"] (pathToGroupId "a/bad") = true := by
  exact ⟨by decide, by decide⟩

/-- Claim C8 as amended: listed children matching an exclude pattern
are pruned right after listing classification: the kept lists are
exactly the non-matching children (so version scanning, file download
and subgroup recursion range only over them), and no excluded child is
ever expanded as a subgroup; but the classification step itself issues
one listing request per child, excluded children included, and
dependency groupIds drained from the queue bypass the exclusion
check. -/
theorem C8_exclusion_after_classification (env : Env) (inc : Bool) (maxd fuel : Nat)
    (gid : String) (depth : Nat) (o : Origin) (st : St)
    (ho : o = Origin.subgroup → _should_exclude env.excludePatterns gid = false) :
    (∀ g d, Ev.expand g d Origin.subgroup ∈
        (download_group env inc maxd fuel gid depth o st).trace →
       Ev.expand g d Origin.subgroup ∈ st.trace ∨
       _should_exclude env.excludePatterns g = false) ∧
    (∀ (pats l : List String) (a : String),
       a ∈ l.filter (fun x => !(_should_exclude pats (pathToGroupId x))) ↔
         a ∈ l ∧ _should_exclude pats (pathToGroupId a) = false) := by
  obtain ⟨⟨t, ht, hok⟩, hproc, hnew, hinv⟩ :=
    download_group_ext env inc maxd fuel gid depth o st ho
  constructor
  · intro g d hg
    rw [ht] at hg
    rcases List.mem_append.mp hg with h | h
    · exact Or.inl h
    · exact Or.inr ((hok _ h).2 rfl)
  · intro pats l a
    rw [List.mem_filter]
    simp [Bool.not_eq_true']

/-- Witness for C8: the exclusion filter keeps the non-matching child
and drops the matching one. -/
theorem C8_witness :
    "x" ∈ (["x", "a/bad"].filter fun p => !(_should_exclude ["bad"] (pathToGroupId p))) :=
  ((C8_exclusion_after_classification envExcl true 2 5 "a" 0 .seed st0
      (fun h => nomatch h)).2 ["bad"] ["x", "a/bad"] "x").mpr ⟨by decide, by decide⟩

/-! ### Claim C2 -/

/-- Claim C2, counterexample: crawling envPom with max_depth 1 the run
completes (the whole trace is the batch of group g, ending after the
write of the descriptor) while the dependency dep.g pushed mid-parse is
still in the new_dependencies queue: no depDrain event exists and
dep.g is never expanded, so the run is declared finished without those
paths being drained. -/
theorem C2_counterexample :
    (run envPom true 1 5 false "g" st0).newDeps = ["dep.g"] ∧
    (run envPom true 1 5 false "g" st0).trace =
      [.expand "g" 0 .seed, .fetch "g/", .fetch "g/a/", .fetch "g/a/", .fetch "g/a/1.0/",
       .fetch "g/a/", .fetch "g/a/1.0/x.pom", .write "g/a/1.0/x.pom"] := by
  exact ⟨by decide, by decide⟩

/-- Claim C2 as amended: there is no worker-polling protocol; each
invocation submits one fixed batch and as_completed waits for every
download before dependency handling, so dependencies pushed mid-parse
are all in the queue when the drain runs; the drain itself dequeues the
entire queue at once, but it runs only when dependency processing is on
and the invocation depth is below max_depth - 1: any new depDrain event
carries such a depth, and at or beyond that bound the queue is only
appended to, so a run whose descriptors yield dependencies at the
deepest expanded level finishes with those paths still queued. -/
theorem C2_batch_completion_and_gated_drain (env : Env) (inc : Bool) (maxd fuel : Nat)
    (gid : String) (depth : Nat) (o : Origin) (st : St)
    (ho : o = Origin.subgroup → _should_exclude env.excludePatterns gid = false) :
    (∀ g d, Ev.depDrain g d ∈ (download_group env inc maxd fuel gid depth o st).trace →
       Ev.depDrain g d ∈ st.trace ∨ (inc = true ∧ d + 1 < maxd)) ∧
    (maxd ≤ depth + 1 →
       ∃ l, (download_group env inc maxd fuel gid depth o st).newDeps = st.newDeps ++ l) ∧
    (∀ (st2 : St) (d2 : Nat),
       (drainNewDeps st2 d2).1 = st2.newDeps ∧ (drainNewDeps st2 d2).2.newDeps = []) := by
  obtain ⟨⟨t, ht, hok⟩, hproc, hnew, hinv⟩ :=
    download_group_ext env inc maxd fuel gid depth o st ho
  refine ⟨?_, ?_, ?_⟩
  · intro g d hg
    rw [ht] at hg
    rcases List.mem_append.mp hg with h | h
    · exact Or.inl h
    · exact Or.inr (hok _ h)
  · exact fun hc => download_group_nd env inc maxd fuel gid depth o st hc
  · intro st2 d2
    exact ⟨rfl, rfl⟩

/-- Witness for C2: at max_depth 1 the top-level batch of envPom keeps
the pushed dependency queued. -/
theorem C2_witness :
    ∃ l, (download_group envPom true 1 5 "g" 0 .seed st0).newDeps = st0.newDeps ++ l :=
  (C2_batch_completion_and_gated_drain envPom true 1 5 "g" 0 .seed st0
    (fun h => nomatch h)).2.1 (by decide)

end MvnDl
